import Mathlib

/-!
Verification development for the Universal-Search repository.

The definitions below are a shallow embedding of the Python sources:
* `src/universal_search/chunkers/text_chunker.py` (TextChunker),
* `src/universal_search/flink_jobs/parser_job.py` (DriveFileParserFunction.process_element),
* `src/universal_search/flink_jobs/chunker_job.py` (FileChunkerFunction.flat_map),
* the per-message chunk-emission part of `demo_pipeline.py` (run_chunker_demo).

Python strings are modelled as `List Char`; Python ints that the code keeps
non-negative are modelled as `Nat` (each place where Python could compute a
negative intermediate value is noted at the definition).  External effects
(Google Drive, PDF extraction, blob storage, the wall clock) are passed in as
explicit parameters, and the chunker's `while` loop - which is not obviously
terminating - is given explicit fuel: `none` means the fuel ran out.
-/

namespace UniversalSearch

/-- Python's whitespace class (`\s` in `re`, and `str.strip()`/`str.isspace()`):
the ASCII whitespace characters together with the Unicode whitespace code
points. -/
def isPySpace (c : Char) : Bool :=
  c == ' ' || c == '\t' || c == '\n' || c == '\r' ||
  c.toNat == 11 || c.toNat == 12 ||
  c.toNat == 28 || c.toNat == 29 || c.toNat == 30 || c.toNat == 31 ||
  c.toNat == 133 || c.toNat == 160 || c.toNat == 5760 ||
  (8192 ≤ c.toNat && c.toNat ≤ 8202) ||
  c.toNat == 8232 || c.toNat == 8233 || c.toNat == 8239 ||
  c.toNat == 8287 || c.toNat == 12288

/-- Model of `re.sub(r'\s+', ' ', text)`: replace every maximal run of whitespace with a
single space.  The boolean argument records whether the previous character was
part of a whitespace run. -/
def collapseWS : Bool → List Char → List Char
  | _, [] => []
  | inRun, c :: rest =>
    if isPySpace c then
      if inRun then collapseWS true rest else ' ' :: collapseWS true rest
    else c :: collapseWS false rest

/-- The control characters removed by `_clean_text`:
`[\x00-\x08\x0B\x0C\x0E-\x1F\x7F]`. -/
def isCtrlChar (c : Char) : Bool :=
  c.toNat ≤ 8 || c.toNat == 11 || c.toNat == 12 ||
  (14 ≤ c.toNat && c.toNat ≤ 31) || c.toNat == 127

/-- Python `str.strip()`: drop whitespace from both ends. -/
def pyStrip (s : List Char) : List Char :=
  ((s.dropWhile isPySpace).reverse.dropWhile isPySpace).reverse

/-- Model of `TextChunker._clean_text`: collapse whitespace runs to a single space,
remove control characters, then strip. -/
def clean_text (text : List Char) : List Char :=
  pyStrip ((collapseWS false text).filter (fun c => !isCtrlChar c))

/-- The `TextChunk` dataclass of `text_chunker.py`. -/
structure TextChunk where
  chunk_id : String
  chunk_index : Nat
  text : List Char
  start_position : Nat
  end_position : Nat
  total_chunks : Nat
deriving Repr, DecidableEq

/-- The sentence-ending characters `['.', '!', '?', '\n']` used by
`_break_at_boundary`. -/
def isSentenceEnd (c : Char) : Bool :=
  c == '.' || c == '!' || c == '?' || c == '\n'

/-- The backward scan (Python `for i in range(hi, lo - 1, -1): if p(l[i]): return i`)
of `_break_at_boundary`: starting at index `hi` and walking down to `lo`
(inclusive), return the first - hence greatest - index whose character
satisfies `p`.  Indices are always in range at every call site, so the
`getD` default is never read. -/
def scanBack (l : List Char) (p : Char → Bool) (lo : Nat) : Nat → Option Nat
  | 0 =>
    if 0 < lo then none
    else if p (l.getD 0 'A') then some 0 else none
  | hi + 1 =>
    if hi + 1 < lo then none
    else if p (l.getD (hi + 1) 'A') then some (hi + 1)
    else scanBack l p lo hi

/-- Model of `TextChunker._break_at_boundary(text, start_pos, end_pos)`: prefer a cut
just after the last sentence-ending character in the final 100 characters of
the tentative chunk; failing that, a cut at the last space in the final 50
characters; failing that, keep the tentative end.  When the tentative chunk is
empty both Python `range` loops are empty and the tentative end is kept. -/
def break_at_boundary (text : List Char) (start_pos end_pos : Nat) :
    List Char × Nat :=
  let ct := (text.drop start_pos).take (end_pos - start_pos)
  if ct.length = 0 then (ct, end_pos)
  else
    match scanBack ct isSentenceEnd (ct.length - 100) (ct.length - 1) with
    | some i => ((text.drop start_pos).take (i + 1), start_pos + i + 1)
    | none =>
      match scanBack ct (fun c => c == ' ') (ct.length - 50) (ct.length - 1) with
      | some i => ((text.drop start_pos).take i, start_pos + i)
      | none => (ct, end_pos)

/-- One tentative-end computation of the `chunk_text` loop body: the chunk text
and actual end position for a chunk starting at `start_pos`
(`end_pos = min(start_pos + window_size, len(cleaned_text))`, boundary-adjusted
whenever `end_pos < len(cleaned_text)`). -/
def chunkEnd (window_size : Nat) (cleaned : List Char) (start_pos : Nat) :
    List Char × Nat :=
  let end_pos := min (start_pos + window_size) cleaned.length
  if end_pos < cleaned.length then break_at_boundary cleaned start_pos end_pos
  else ((cleaned.drop start_pos).take (end_pos - start_pos), end_pos)

/-- One full iteration of the `chunk_text` while-loop: the emitted chunk and
the next value of `start_pos`.  Python computes `start_pos = end_pos - overlap`
as an `int`; when that value is negative it is necessarily `<=` the emitted
chunk's (non-negative) `start_position`, so the guard overwrites it with
`end_position` - exactly as the truncating `Nat` subtraction below does. -/
def chunkStep (window_size overlap : Nat) (cleaned : List Char)
    (file_id : String) (start_pos chunk_index : Nat) : TextChunk × Nat :=
  let r := chunkEnd window_size cleaned start_pos
  let chunk : TextChunk :=
    { chunk_id := file_id ++ "_chunk_" ++ toString chunk_index
      chunk_index := chunk_index
      text := r.1
      start_position := start_pos
      end_position := r.2
      total_chunks := 0 }
  let next0 := r.2 - overlap
  let next := if next0 ≤ chunk.start_position then chunk.end_position else next0
  (chunk, next)

/-- The `while start_pos < len(cleaned_text)` loop of `chunk_text`, with fuel:
`none` means the fuel was exhausted before the loop finished. -/
def chunkLoop (window_size overlap : Nat) (cleaned : List Char)
    (file_id : String) : Nat → Nat → Nat → List TextChunk →
    Option (List TextChunk)
  | 0, _, _, _ => none
  | fuel + 1, start_pos, chunk_index, chunks =>
    if start_pos < cleaned.length then
      let r := chunkStep window_size overlap cleaned file_id start_pos chunk_index
      chunkLoop window_size overlap cleaned file_id fuel r.2 (chunk_index + 1)
        (chunks ++ [r.1])
    else some chunks

/-- Model of `for chunk in chunks: chunk.total_chunks = len(chunks)`. -/
def setTotal (n : Nat) (c : TextChunk) : TextChunk := { c with total_chunks := n }

/-- Model of `TextChunker.chunk_text(text, file_id)` for an already-validated
configuration `(window_size, overlap)`.  `some chunks` is the returned list;
`none` means the while-loop did not finish within `fuel` iterations. -/
def chunk_text (window_size overlap fuel : Nat) (text : List Char)
    (file_id : String) : Option (List TextChunk) :=
  if text.isEmpty || (pyStrip text).isEmpty then some []
  else
    let cleaned := clean_text text
    if cleaned.length ≤ window_size then
      some [{ chunk_id := file_id ++ "_chunk_0"
              chunk_index := 0
              text := cleaned
              start_position := 0
              end_position := cleaned.length
              total_chunks := 1 }]
    else
      (chunkLoop window_size overlap cleaned file_id fuel 0 0 []).map
        (fun cs => cs.map (setTotal cs.length))

/-- Model of `TextChunker.__init__(window_size, overlap)`: the two validation checks, in
source order.  Arguments are `Int` because Python accepts (and the spec talks
about) negative values. -/
def TextChunker.init (window_size overlap : Int) : Except String (Int × Int) :=
  if overlap ≥ window_size then
    Except.error "Overlap must be less than window size"
  else if window_size ≤ 0 ∨ overlap < 0 then
    Except.error "Window size must be positive and overlap must be non-negative"
  else Except.ok (window_size, overlap)

example : clean_text "a  b".toList = "a b".toList := by decide
example : chunk_text 1000 200 5 "".toList "f" = some [] := by decide
example : (chunk_text 5 1 10 "abcdefghij".toList "f").map List.length = some 4 := by decide

/-! ### Properties of the backward scan -/

theorem scanBack_some (l : List Char) (p : Char → Bool) (lo : Nat) :
    ∀ hi j, scanBack l p lo hi = some j →
      lo ≤ j ∧ j ≤ hi ∧ p (l.getD j 'A') = true := by
  intro hi
  induction hi with
  | zero =>
    intro j h
    simp only [scanBack] at h
    split at h
    · exact absurd h (by simp)
    · split at h
      · next hlo hp =>
        cases h
        exact ⟨by omega, Nat.le_refl 0, hp⟩
      · exact absurd h (by simp)
  | succ n ih =>
    intro j h
    simp only [scanBack] at h
    split at h
    · exact absurd h (by simp)
    · split at h
      · next hlo hp =>
        cases h
        exact ⟨by omega, Nat.le_refl _, hp⟩
      · have := ih j h
        exact ⟨this.1, by omega, this.2.2⟩

theorem scanBack_some_max (l : List Char) (p : Char → Bool) (lo : Nat) :
    ∀ hi j, scanBack l p lo hi = some j →
      ∀ k, j < k → k ≤ hi → p (l.getD k 'A') = false := by
  intro hi
  induction hi with
  | zero =>
    intro j h k hk1 hk2
    have := (scanBack_some l p lo 0 j h).2.1
    omega
  | succ n ih =>
    intro j h k hk1 hk2
    simp only [scanBack] at h
    split at h
    · exact absurd h (by simp)
    · split at h
      · next hlo hp =>
        cases h
        omega
      · next hlo hp =>
        rcases Nat.lt_or_ge k (n + 1) with hk | hk
        · exact ih j h k hk1 (by omega)
        · have : k = n + 1 := by omega
          subst this
          exact Bool.not_eq_true _ ▸ hp

theorem scanBack_none (l : List Char) (p : Char → Bool) (lo : Nat) :
    ∀ hi, scanBack l p lo hi = none →
      ∀ k, lo ≤ k → k ≤ hi → p (l.getD k 'A') = false := by
  intro hi
  induction hi with
  | zero =>
    intro h k hk1 hk2
    simp only [scanBack] at h
    split at h
    · next hlo => omega
    · split at h
      · exact absurd h (by simp)
      · next hlo hp =>
        have : k = 0 := by omega
        subst this
        exact Bool.not_eq_true _ ▸ hp
  | succ n ih =>
    intro h k hk1 hk2
    simp only [scanBack] at h
    split at h
    · next hlo => omega
    · split at h
      · exact absurd h (by simp)
      · next hlo hp =>
        rcases Nat.lt_or_ge k (n + 1) with hk | hk
        · exact ih h k hk1 (by omega)
        · have : k = n + 1 := by omega
          subst this
          exact Bool.not_eq_true _ ▸ hp

/-! ### Bounds for the boundary adjustment and the loop body -/

theorem break_at_boundary_bounds (text : List Char) (s e : Nat)
    (hse : s ≤ e) (hel : e ≤ text.length) :
    s ≤ (break_at_boundary text s e).2 ∧ (break_at_boundary text s e).2 ≤ e ∧
    (break_at_boundary text s e).1 =
      (text.drop s).take ((break_at_boundary text s e).2 - s) := by
  have hct : ((text.drop s).take (e - s)).length = e - s := by
    simp only [List.length_take, List.length_drop]
    omega
  simp only [break_at_boundary]
  split
  · next h0 =>
    exact ⟨hse, Nat.le_refl e, rfl⟩
  · next h0 =>
    rw [hct] at h0
    split
    · next i hscan =>
      have hb := scanBack_some _ _ _ _ _ hscan
      rw [hct] at hb
      refine ⟨by omega, by omega, ?_⟩
      simp only
      congr 1
      omega
    · split
      · next i hscan =>
        have hb := scanBack_some _ _ _ _ _ hscan
        rw [hct] at hb
        refine ⟨by omega, by omega, ?_⟩
        simp only
        congr 1
        omega
      · exact ⟨hse, Nat.le_refl e, rfl⟩

theorem chunkEnd_bounds (W : Nat) (cleaned : List Char) (s : Nat)
    (hs : s < cleaned.length) :
    s ≤ (chunkEnd W cleaned s).2 ∧ (chunkEnd W cleaned s).2 ≤ cleaned.length ∧
    (chunkEnd W cleaned s).1 =
      (cleaned.drop s).take ((chunkEnd W cleaned s).2 - s) := by
  simp only [chunkEnd]
  have h1 : s ≤ min (s + W) cleaned.length := by omega
  have h2 : min (s + W) cleaned.length ≤ cleaned.length := by omega
  split
  · next hlt =>
    have := break_at_boundary_bounds cleaned s (min (s + W) cleaned.length) h1 h2
    exact ⟨this.1, Nat.le_trans this.2.1 h2, this.2.2⟩
  · exact ⟨h1, h2, rfl⟩

theorem chunkStep_fst (W o : Nat) (cl : List Char) (fid : String) (s idx : Nat) :
    (chunkStep W o cl fid s idx).1 =
      { chunk_id := fid ++ "_chunk_" ++ toString idx
        chunk_index := idx
        text := (chunkEnd W cl s).1
        start_position := s
        end_position := (chunkEnd W cl s).2
        total_chunks := 0 } := rfl

theorem chunkStep_snd (W o : Nat) (cl : List Char) (fid : String) (s idx : Nat) :
    (chunkStep W o cl fid s idx).2 =
      if (chunkEnd W cl s).2 - o ≤ s then (chunkEnd W cl s).2
      else (chunkEnd W cl s).2 - o := rfl

theorem chunkLoop_succ (W o : Nat) (cl : List Char) (fid : String)
    (fuel s idx : Nat) (cs : List TextChunk) :
    chunkLoop W o cl fid (fuel + 1) s idx cs =
      if s < cl.length then
        chunkLoop W o cl fid fuel (chunkStep W o cl fid s idx).2 (idx + 1)
          (cs ++ [(chunkStep W o cl fid s idx).1])
      else some cs := rfl

/-! ### Invariants of the sliding-window loop -/

/-- Per-chunk well-formedness: positions are an interval inside the cleaned
text and the chunk text is exactly the slice they delimit. -/
def chunkInv (cleaned : List Char) (c : TextChunk) : Prop :=
  c.start_position ≤ c.end_position ∧ c.end_position ≤ cleaned.length ∧
  c.text = (cleaned.drop c.start_position).take
    (c.end_position - c.start_position)

theorem chunkLoop_inv (W o : Nat) (cl : List Char) (fid : String) :
    ∀ fuel s idx cs res, chunkLoop W o cl fid fuel s idx cs = some res →
      (∀ c ∈ cs, chunkInv cl c) → ∀ c ∈ res, chunkInv cl c := by
  intro fuel
  induction fuel with
  | zero => intro s idx cs res h; exact absurd h (by simp [chunkLoop])
  | succ n ih =>
    intro s idx cs res h hcs
    rw [chunkLoop_succ] at h
    split at h
    · next hs =>
      refine ih _ _ _ _ h ?_
      intro c hc
      rcases List.mem_append.mp hc with h1 | h2
      · exact hcs c h1
      · have hc2 : c = (chunkStep W o cl fid s idx).1 := by simpa using h2
        subst hc2
        rw [chunkStep_fst]
        obtain ⟨hb1, hb2, hb3⟩ := chunkEnd_bounds W cl s hs
        exact ⟨hb1, hb2, hb3⟩
    · cases h
      exact hcs

theorem chunkLoop_last (W o : Nat) (cl : List Char) (fid : String) :
    ∀ fuel s idx cs res, chunkLoop W o cl fid fuel s idx cs = some res →
      (res = cs ∧ cl.length ≤ s) ∨
      (∃ c, res.getLast? = some c ∧ c.end_position = cl.length) := by
  intro fuel
  induction fuel with
  | zero => intro s idx cs res h; exact absurd h (by simp [chunkLoop])
  | succ n ih =>
    intro s idx cs res h
    rw [chunkLoop_succ] at h
    split at h
    · next hs =>
      rcases ih _ _ _ _ h with ⟨heq, hle⟩ | hdone
      · right
        refine ⟨(chunkStep W o cl fid s idx).1, ?_, ?_⟩
        · rw [heq]
          exact List.getLast?_concat _
        · have hend := (chunkEnd_bounds W cl s hs).2.1
          rw [chunkStep_snd] at hle
          rw [chunkStep_fst]
          simp only
          split at hle <;> omega
      · exact Or.inr hdone
    · cases h
      exact Or.inl ⟨rfl, by omega⟩

/-- The advancement rule of the loop: the start position of the next chunk as
a function of the chunk just emitted (`start_pos = end_pos - overlap`, forced
to `end_pos` by the non-advancement guard). -/
def stepNext (o : Nat) (c : TextChunk) : Nat :=
  if c.end_position - o ≤ c.start_position then c.end_position
  else c.end_position - o

/-- Adjacency relation between consecutively-emitted chunks. -/
def chunkRel (o : Nat) (a b : TextChunk) : Prop :=
  b.start_position = stepNext o a

theorem chunkLoop_chain (W o : Nat) (cl : List Char) (fid : String) :
    ∀ fuel s idx cs res, chunkLoop W o cl fid fuel s idx cs = some res →
      List.Chain' (chunkRel o) cs →
      (∀ c ∈ cs.getLast?, s = stepNext o c) →
      List.Chain' (chunkRel o) res := by
  intro fuel
  induction fuel with
  | zero => intro s idx cs res h; exact absurd h (by simp [chunkLoop])
  | succ n ih =>
    intro s idx cs res h hchain hlink
    rw [chunkLoop_succ] at h
    split at h
    · next hs =>
      refine ih _ _ _ _ h ?_ ?_
      · rw [List.chain'_append]
        refine ⟨hchain, List.chain'_singleton _, ?_⟩
        intro x hx y hy
        have hy2 : (chunkStep W o cl fid s idx).1 = y := by simpa using hy
        subst hy2
        show (chunkStep W o cl fid s idx).1.start_position = stepNext o x
        rw [chunkStep_fst]
        exact hlink x hx
      · intro c hc
        have hc2 : (chunkStep W o cl fid s idx).1 = c := by
          have := List.getLast?_concat (l := cs) (a := (chunkStep W o cl fid s idx).1)
          rw [this] at hc
          simpa using hc
        subst hc2
        rw [chunkStep_snd, chunkStep_fst, stepNext]
    · cases h
      exact hchain


/-! ### C1: the guard does not in fact guarantee termination -/

/-- The failing input for the termination claim: a valid configuration
`window_size = 10, overlap = 3` and this text drive the loop into a state
(`start_pos = 7`) whose boundary adjustment finds only the space at the very
start of the tentative chunk, producing an empty chunk `[7, 7)`; the guard
then forces `start_pos` to that chunk's end position, `7` again, forever. -/
def c1Text : List Char := "abcdefg xxxxxxxxxxxxxxxxxxxx".toList

theorem c1_step_at7 (fid : String) (idx : Nat) :
    (chunkStep 10 3 c1Text fid 7 idx).2 = 7 := by
  rw [chunkStep_snd]
  have h : (chunkEnd 10 c1Text 7).2 = 7 := by decide
  rw [h]
  decide

theorem c1_loop_at7 (fid : String) :
    ∀ fuel idx cs, chunkLoop 10 3 c1Text fid fuel 7 idx cs = none := by
  intro fuel
  induction fuel with
  | zero => intro idx cs; rfl
  | succ n ih =>
    intro idx cs
    rw [chunkLoop_succ, c1_step_at7, if_pos (by decide : (7:Nat) < c1Text.length)]
    exact ih _ _

theorem c1_loop_at4 (fid : String) :
    ∀ fuel idx cs, chunkLoop 10 3 c1Text fid fuel 4 idx cs = none := by
  intro fuel
  cases fuel with
  | zero => intro idx cs; rfl
  | succ n =>
    intro idx cs
    rw [chunkLoop_succ, if_pos (by decide : (4:Nat) < c1Text.length)]
    have h : (chunkStep 10 3 c1Text fid 4 idx).2 = 7 := by
      rw [chunkStep_snd]
      have h2 : (chunkEnd 10 c1Text 4).2 = 7 := by decide
      rw [h2]
      decide
    rw [h]
    exact c1_loop_at7 fid n _ _

theorem c1_loop_at0 (fid : String) :
    ∀ fuel idx cs, chunkLoop 10 3 c1Text fid fuel 0 idx cs = none := by
  intro fuel
  cases fuel with
  | zero => intro idx cs; rfl
  | succ n =>
    intro idx cs
    rw [chunkLoop_succ, if_pos (by decide : (0:Nat) < c1Text.length)]
    have h : (chunkStep 10 3 c1Text fid 0 idx).2 = 4 := by
      rw [chunkStep_snd]
      have h2 : (chunkEnd 10 c1Text 0).2 = 7 := by decide
      rw [h2]
      decide
    rw [h]
    exact c1_loop_at4 fid n _ _

/-- C1: for the valid configuration `windowSize = 10 > overlap = 3 >= 0` and
the finite input `c1Text`, `TextChunker.chunk_text` does NOT terminate: the
sliding-window loop never finishes, whatever the fuel.  (The failing iteration
emits the empty chunk `[7, 7)` and the non-advancement guard then sets
`start_pos` to that chunk's end position, which equals its start position.)
This refutes the claimed termination guarantee; the code's own
`# Prevent infinite loop` comment and the spec's termination promise mark it
as a bug in the code. -/
theorem chunk_text_c1_nonterminating :
    ∀ fuel, chunk_text 10 3 fuel c1Text "f" = none := by
  intro fuel
  have hclean : clean_text c1Text = c1Text := by decide
  simp only [chunk_text, hclean]
  rw [if_neg (by decide), if_neg (by decide), c1_loop_at0]
  rfl

/-! ### Claim theorems about chunk_text -/

/-- C4: whenever `chunk_text` returns a non-empty chunk sequence, the last
chunk's `end_position` equals the length of the cleaned text. -/
theorem chunk_text_last_end (W o fuel : Nat) (text : List Char) (fid : String)
    (res : List TextChunk) (h : chunk_text W o fuel text fid = some res)
    (hne : res ≠ []) :
    ∃ c, res.getLast? = some c ∧ c.end_position = (clean_text text).length := by
  simp only [chunk_text] at h
  split at h
  · cases h
    exact absurd rfl hne
  · split at h
    · cases h
      exact ⟨_, rfl, rfl⟩
    · next hlen =>
      rw [Option.map_eq_some'] at h
      obtain ⟨cs, hcs, hres⟩ := h
      rcases chunkLoop_last W o (clean_text text) fid fuel 0 0 [] cs hcs with
        ⟨_, hle⟩ | ⟨c, hlast, hend⟩
      · omega
      · subst hres
        refine ⟨setTotal cs.length c, ?_, hend⟩
        rw [List.getLast?_map, hlast]
        rfl

/-- C4 witness at a concrete input. -/
theorem chunk_text_last_end_witness :
    ∃ c, ((chunk_text 5 1 10 "abcdefghij".toList "f").getD []).getLast? =
        some c ∧ c.end_position = (clean_text "abcdefghij".toList).length :=
  chunk_text_last_end 5 1 10 "abcdefghij".toList "f" _ rfl (by decide)

/-- C10: every chunk emitted by `chunk_text` carries exactly the slice of the
cleaned text between its positions, so `end - start = len(text)` always holds
and the positions always fit inside the cleaned text. -/
theorem chunk_text_slice (W o fuel : Nat) (text : List Char) (fid : String)
    (res : List TextChunk) (h : chunk_text W o fuel text fid = some res) :
    ∀ c ∈ res,
      c.text = ((clean_text text).drop c.start_position).take
        (c.end_position - c.start_position) ∧
      c.end_position - c.start_position = c.text.length ∧
      c.start_position ≤ c.end_position ∧
      c.end_position ≤ (clean_text text).length := by
  have key : ∀ c ∈ res, chunkInv (clean_text text) c := by
    simp only [chunk_text] at h
    split at h
    · cases h
      intro c hc
      exact absurd hc (by simp)
    · split at h
      · cases h
        intro c hc
        have hc2 := List.mem_singleton.mp hc
        subst hc2
        refine ⟨Nat.zero_le _, Nat.le_refl _, ?_⟩
        simp [List.take_length]
      · rw [Option.map_eq_some'] at h
        obtain ⟨cs, hcs, hres⟩ := h
        subst hres
        intro c hc
        rw [List.mem_map] at hc
        obtain ⟨c0, hc0, hc0e⟩ := hc
        have hinv := chunkLoop_inv W o (clean_text text) fid fuel 0 0 [] cs hcs
          (by simp) c0 hc0
        subst hc0e
        exact hinv
  intro c hc
  obtain ⟨h1, h2, h3⟩ := key c hc
  refine ⟨h3, ?_, h1, h2⟩
  rw [h3]
  simp only [List.length_take, List.length_drop]
  omega

/-- C10 witness at a concrete input. -/
theorem chunk_text_slice_witness :
    ∃ res, chunk_text 5 1 10 "abcdefghij".toList "f" = some res ∧
      ∀ c ∈ res,
        c.text = ((clean_text "abcdefghij".toList).drop c.start_position).take
          (c.end_position - c.start_position) ∧
        c.end_position - c.start_position = c.text.length ∧
        c.start_position ≤ c.end_position ∧
        c.end_position ≤ (clean_text "abcdefghij".toList).length :=
  ⟨(chunk_text 5 1 10 "abcdefghij".toList "f").getD [], rfl,
   chunk_text_slice 5 1 10 "abcdefghij".toList "f" _ rfl⟩

/-- Every chunk sequence returned by `chunk_text` is linked by the loop's
advancement rule. -/
theorem chunk_text_chain (W o fuel : Nat) (text : List Char) (fid : String)
    (res : List TextChunk) (h : chunk_text W o fuel text fid = some res) :
    List.Chain' (chunkRel o) res := by
  simp only [chunk_text] at h
  split at h
  · cases h
    exact List.chain'_nil
  · split at h
    · cases h
      exact List.chain'_singleton _
    · rw [Option.map_eq_some'] at h
      obtain ⟨cs, hcs, hres⟩ := h
      subst hres
      rw [List.chain'_map]
      have hchain := chunkLoop_chain W o (clean_text text) fid fuel 0 0 [] cs hcs
        List.chain'_nil (by simp)
      refine List.Chain'.imp ?_ hchain
      intro a b hab
      exact hab

/-- C7 (amended): consecutive chunks always satisfy
`startPosition <= previous endPosition`; the inequality is strict when
`overlap >= 1` and the forced-advance guard did not trigger for that step
(i.e. `previous start + overlap < previous end`).  With `overlap = 0` a
non-guard step yields equality, not strictness. -/
theorem chunk_text_overlap (W o fuel : Nat) (text : List Char) (fid : String)
    (res : List TextChunk) (h : chunk_text W o fuel text fid = some res)
    (i : Nat) (a b : TextChunk) (ha : res[i]? = some a)
    (hb : res[i + 1]? = some b) :
    b.start_position ≤ a.end_position ∧
    (1 ≤ o → a.start_position + o < a.end_position →
      b.start_position < a.end_position) := by
  have hchain := chunk_text_chain W o fuel text fid res h
  rw [List.chain'_iff_get] at hchain
  rw [List.getElem?_eq_some_iff] at ha hb
  obtain ⟨hia, hae⟩ := ha
  obtain ⟨hib, hbe⟩ := hb
  have hrel := hchain i (by omega)
  rw [List.get_eq_getElem, List.get_eq_getElem] at hrel
  simp only at hrel
  rw [hae, hbe] at hrel
  unfold chunkRel stepNext at hrel
  split at hrel <;> exact ⟨by omega, fun h1 h2 => by omega⟩

/-- C7 witness at a concrete input with `overlap = 1`. -/
theorem chunk_text_overlap_witness :
    ∃ a b, ((chunk_text 5 1 10 "abcdefghij".toList "f").getD [])[0]? = some a ∧
      ((chunk_text 5 1 10 "abcdefghij".toList "f").getD [])[1]? = some b ∧
      b.start_position ≤ a.end_position ∧
      (1 ≤ 1 → a.start_position + 1 < a.end_position →
        b.start_position < a.end_position) := by
  refine ⟨_, _, rfl, rfl, ?_⟩
  exact chunk_text_overlap 5 1 10 "abcdefghij".toList "f" _ rfl 0 _ _ rfl rfl

/-- C7 counterexample: with the valid configuration `windowSize = 2,
overlap = 0` on input `"abcd"` the two chunks are `[0,2)` and `[2,4)`: the
second chunk's `startPosition` equals (is not strictly less than) the first
chunk's `endPosition`, although the forced-advance guard did not trigger for
that step (`end - overlap = 2 > 0 = start`). -/
theorem chunk_text_overlap_cex :
    (chunk_text 2 0 10 "abcd".toList "f").map
        (fun cs => cs.map (fun c => (c.start_position, c.end_position))) =
      some [(0, 2), (2, 4)] ∧
    ¬((2:Nat) < 2) ∧ ¬((2:Nat) - 0 ≤ 0) := by
  exact ⟨by decide, by decide, by decide⟩

/-- C6 (amended): for every text that is non-empty and contains a
non-whitespace character, if the cleaned text fits in the window then
`chunk_text` returns exactly the single chunk
`(index 0, [0, len(cleaned)), totalChunks 1)`. -/
theorem chunk_text_single (W o fuel : Nat) (text : List Char) (fid : String)
    (hne : text.isEmpty = false) (hstrip : (pyStrip text).isEmpty = false)
    (hlen : (clean_text text).length ≤ W) :
    chunk_text W o fuel text fid =
      some [{ chunk_id := fid ++ "_chunk_0"
              chunk_index := 0
              text := clean_text text
              start_position := 0
              end_position := (clean_text text).length
              total_chunks := 1 }] := by
  simp only [chunk_text, hne, hstrip, Bool.or_self, Bool.false_eq_true,
    if_false, if_pos hlen]

/-- C6 witness at a concrete input. -/
theorem chunk_text_single_witness :
    chunk_text 1000 200 5 "hi there".toList "f" =
      some [{ chunk_id := "f" ++ "_chunk_0"
              chunk_index := 0
              text := clean_text "hi there".toList
              start_position := 0
              end_position := (clean_text "hi there".toList).length
              total_chunks := 1 }] :=
  chunk_text_single 1000 200 5 "hi there".toList "f" (by decide) (by decide)
    (by decide)

/-- C6 counterexample: the empty text has `len(cleaned) = 0 <= windowSize`,
yet `chunk_text` returns zero chunks, not one - the claim's universal
quantification over every text fails on empty/whitespace-only input. -/
theorem chunk_text_single_cex :
    (clean_text [] = [] ∧ (clean_text []).length ≤ 1000) ∧
    chunk_text 1000 200 5 [] "f" = some [] := by
  exact ⟨⟨rfl, by decide⟩, by decide⟩

/-- C5: the boundary adjustment prefers the greatest sentence-ending position
in the last 100 characters of the tentative chunk (cutting just after it),
then the greatest space in the last 50 characters (cutting at, and excluding,
the space), and otherwise keeps the tentative end; and on the spec's scenario
(`windowSize = 30`, `overlap = 5`) the first chunk ends at position 19, just
after `"This is a sentence."`. -/
theorem break_at_boundary_rule (text : List Char) (s e : Nat)
    (hse : s < e) (hel : e ≤ text.length) :
    ((∃ j, e - s - 100 ≤ j ∧ j < e - s ∧
        isSentenceEnd (((text.drop s).take (e - s)).getD j 'A') = true) →
      ∃ i, (e - s - 100 ≤ i ∧ i < e - s ∧
          isSentenceEnd (((text.drop s).take (e - s)).getD i 'A') = true) ∧
        (∀ k, i < k → k < e - s →
          isSentenceEnd (((text.drop s).take (e - s)).getD k 'A') = false) ∧
        break_at_boundary text s e =
          ((text.drop s).take (i + 1), s + i + 1)) ∧
    ((∀ j, e - s - 100 ≤ j → j < e - s →
        isSentenceEnd (((text.drop s).take (e - s)).getD j 'A') = false) →
      (∃ j, e - s - 50 ≤ j ∧ j < e - s ∧
        (((text.drop s).take (e - s)).getD j 'A' == ' ') = true) →
      ∃ i, (e - s - 50 ≤ i ∧ i < e - s ∧
          (((text.drop s).take (e - s)).getD i 'A' == ' ') = true) ∧
        (∀ k, i < k → k < e - s →
          (((text.drop s).take (e - s)).getD k 'A' == ' ') = false) ∧
        break_at_boundary text s e = ((text.drop s).take i, s + i)) ∧
    ((∀ j, e - s - 100 ≤ j → j < e - s →
        isSentenceEnd (((text.drop s).take (e - s)).getD j 'A') = false) →
      (∀ j, e - s - 50 ≤ j → j < e - s →
        (((text.drop s).take (e - s)).getD j 'A' == ' ') = false) →
      break_at_boundary text s e = ((text.drop s).take (e - s), e)) ∧
    (chunk_text 30 5 16
        "This is a sentence. This is another sentence! And a third one?".toList
        "f1").map
        (fun cs => cs.head?.map (fun c => (c.start_position, c.end_position)))
      = some (some (0, 19)) := by
  have hct : ((text.drop s).take (e - s)).length = e - s := by
    simp only [List.length_take, List.length_drop]
    omega
  have hne : ¬(((text.drop s).take (e - s)).length = 0) := by omega
  refine ⟨?_, ?_, ?_, by decide⟩
  · rintro ⟨j, hj1, hj2, hjp⟩
    cases hscan : scanBack ((text.drop s).take (e - s)) isSentenceEnd
        (((text.drop s).take (e - s)).length - 100)
        (((text.drop s).take (e - s)).length - 1) with
    | none =>
      exfalso
      have hfalse := scanBack_none _ _ _ _ hscan j (by omega) (by omega)
      rw [hjp] at hfalse
      exact absurd hfalse (by simp)
    | some i =>
      have hb := scanBack_some _ _ _ _ _ hscan
      have hmax := scanBack_some_max _ _ _ _ _ hscan
      rw [hct] at hb hmax
      refine ⟨i, ⟨hb.1, by omega, hb.2.2⟩, ?_, ?_⟩
      · intro k hk1 hk2
        exact hmax k hk1 (by omega)
      · simp only [break_at_boundary]
        rw [if_neg hne, hscan]
  · intro hnosent hsp
    obtain ⟨j, hj1, hj2, hjp⟩ := hsp
    have hscan1 : scanBack ((text.drop s).take (e - s)) isSentenceEnd
        (((text.drop s).take (e - s)).length - 100)
        (((text.drop s).take (e - s)).length - 1) = none := by
      cases hscan : scanBack ((text.drop s).take (e - s)) isSentenceEnd
          (((text.drop s).take (e - s)).length - 100)
          (((text.drop s).take (e - s)).length - 1) with
      | none => rfl
      | some i =>
        exfalso
        have hb := scanBack_some _ _ _ _ _ hscan
        rw [hct] at hb
        have hcontra := hnosent i hb.1 (by omega)
        rw [hb.2.2] at hcontra
        exact absurd hcontra (by simp)
    cases hscan2 : scanBack ((text.drop s).take (e - s)) (fun c => c == ' ')
        (((text.drop s).take (e - s)).length - 50)
        (((text.drop s).take (e - s)).length - 1) with
    | none =>
      exfalso
      have hfalse := scanBack_none _ _ _ _ hscan2 j (by omega) (by omega)
      rw [hjp] at hfalse
      exact absurd hfalse (by simp)
    | some i =>
      have hb := scanBack_some _ _ _ _ _ hscan2
      have hmax := scanBack_some_max _ _ _ _ _ hscan2
      rw [hct] at hb hmax
      refine ⟨i, ⟨hb.1, by omega, hb.2.2⟩, ?_, ?_⟩
      · intro k hk1 hk2
        exact hmax k hk1 (by omega)
      · simp only [break_at_boundary]
        rw [if_neg hne, hscan1, hscan2]
  · intro hnosent hnospace
    have hscan1 : scanBack ((text.drop s).take (e - s)) isSentenceEnd
        (((text.drop s).take (e - s)).length - 100)
        (((text.drop s).take (e - s)).length - 1) = none := by
      cases hscan : scanBack ((text.drop s).take (e - s)) isSentenceEnd
          (((text.drop s).take (e - s)).length - 100)
          (((text.drop s).take (e - s)).length - 1) with
      | none => rfl
      | some i =>
        exfalso
        have hb := scanBack_some _ _ _ _ _ hscan
        rw [hct] at hb
        have hcontra := hnosent i hb.1 (by omega)
        rw [hb.2.2] at hcontra
        exact absurd hcontra (by simp)
    have hscan2 : scanBack ((text.drop s).take (e - s)) (fun c => c == ' ')
        (((text.drop s).take (e - s)).length - 50)
        (((text.drop s).take (e - s)).length - 1) = none := by
      cases hscan : scanBack ((text.drop s).take (e - s)) (fun c => c == ' ')
          (((text.drop s).take (e - s)).length - 50)
          (((text.drop s).take (e - s)).length - 1) with
      | none => rfl
      | some i =>
        exfalso
        have hb := scanBack_some _ _ _ _ _ hscan
        rw [hct] at hb
        have hcontra := hnospace i hb.1 (by omega)
        rw [hb.2.2] at hcontra
        exact absurd hcontra (by simp)
    simp only [break_at_boundary]
    rw [if_neg hne, hscan1, hscan2]

/-- C5 witness: the no-boundary fallback on the spec's `"NoBoundaryHere"`
scenario, via the rule theorem. -/
theorem break_at_boundary_rule_witness :
    break_at_boundary "NoBoundaryHere".toList 0 5 =
      (("NoBoundaryHere".toList.drop 0).take (5 - 0), 5) :=
  (break_at_boundary_rule "NoBoundaryHere".toList 0 5 (by decide)
      (by decide)).2.2.1
    (fun j h1 h2 => by interval_cases j <;> decide)
    (fun j h1 h2 => by interval_cases j <;> decide)

/-- C9: `TextChunker.__init__` raises exactly when `windowSize <= 0`,
`overlap < 0` or `overlap >= windowSize`; the three concrete configurations
from the spec all raise, and every valid configuration constructs. -/
theorem textChunker_init_iff :
    (∀ w o : Int, (∃ msg, TextChunker.init w o = Except.error msg) ↔
      (w ≤ 0 ∨ o < 0 ∨ w ≤ o)) ∧
    (∃ m, TextChunker.init 100 200 = Except.error m) ∧
    (∃ m, TextChunker.init 0 0 = Except.error m) ∧
    (∃ m, TextChunker.init 1000 (-1) = Except.error m) ∧
    (∀ w o : Int, 0 < w → 0 ≤ o → o < w →
      TextChunker.init w o = Except.ok (w, o)) := by
  refine ⟨?_, ⟨_, rfl⟩, ⟨_, rfl⟩, ⟨_, rfl⟩, ?_⟩
  · intro w o
    constructor
    · rintro ⟨msg, hmsg⟩
      unfold TextChunker.init at hmsg
      split_ifs at hmsg with h1 h2
      · omega
      · omega
    · intro h
      unfold TextChunker.init
      split_ifs with h1 h2
      · exact ⟨_, rfl⟩
      · exact ⟨_, rfl⟩
      · omega
  · intro w o h1 h2 h3
    unfold TextChunker.init
    split_ifs with h4 h5
    · omega
    · omega
    · rfl

/-- C9 witness: a valid configuration constructs, via the iff theorem. -/
theorem textChunker_init_iff_witness :
    TextChunker.init 1000 200 = Except.ok (1000, 200) :=
  textChunker_init_iff.2.2.2.2 1000 200 (by decide) (by decide) (by decide)

/-! ### ParseStage: DriveFileParserFunction.process_element (parser_job.py) -/

/-- Truthiness of an optional Python string: `None` and `""` are falsy. -/
def truthyStr : Option String → Bool
  | none => false
  | some s => !s.data.isEmpty

/-- Python string comparison `a < b` (lexicographic on code points). -/
def pyStrLt : List Char → List Char → Bool
  | [], [] => false
  | [], _ :: _ => true
  | _ :: _, [] => false
  | a :: as, b :: bs =>
    if a.toNat < b.toNat then true
    else if b.toNat < a.toNat then false
    else pyStrLt as bs

/-- Python string comparison `a <= b`. -/
def pyStrLe (a b : List Char) : Bool := pyStrLt a b || a == b

/-- Model of `DriveClient.is_pdf_file`: standard PDFs and Google Docs (exportable as
PDF). -/
def is_pdf_file (mime_type : Option String) : Bool :=
  mime_type == some "application/pdf" ||
  mime_type == some "application/vnd.google-apps.document"

/-- An incoming drive-file message (the fields `process_element` reads;
`mimeType`/`modifiedTime` may be absent). -/
structure DriveFileValue where
  id : String
  name : String
  mimeType : Option String
  modifiedTime : Option String
deriving Repr, DecidableEq

/-- The parsed-file record produced by `process_element`. -/
structure ParsedFileMsg where
  id : String
  name : String
  mimeType : Option String
  modifiedTime : Option String
  storagePath : String
  textLength : Option Nat
  parseTimestamp : String
  parseStatus : String
  errorMessage : Option String
deriving Repr, DecidableEq

/-- The external collaborators of one `process_element` call: the extractor's
result `(parsed_text, parse_status)`, whether `storage_adapter.save` succeeds
(with the exception text when it does not), and the current wall-clock
timestamp. -/
structure ParseEnv where
  parsed_text : Option String
  parse_status : String
  save_ok : Bool
  save_err : String
  now : String
deriving Repr, DecidableEq

/-- What one `process_element` call produces: the returned message (or `none`
for a skip), the keyed `last_processed_time` state after the call, and the
storage writes performed. -/
structure ParseResult where
  output : Option ParsedFileMsg
  state : Option String
  writes : List (String × String)
deriving Repr, DecidableEq

/-- Model of `DriveFileParserFunction.process_element` of `parser_job.py` (the normal,
non-exception path): mime filter, dedup by `modifiedTime` against the keyed
state, record construction, the status branches, the storage write on
success, and the state update. -/
def process_element (env : ParseEnv) (state : Option String)
    (value : DriveFileValue) : ParseResult :=
  if !is_pdf_file value.mimeType then ⟨none, state, []⟩
  else if truthyStr state && truthyStr value.modifiedTime &&
      pyStrLe (value.modifiedTime.getD "").data (state.getD "").data then
    ⟨none, state, []⟩
  else
    let storage_path := "parsed/" ++ value.id ++ ".txt"
    let base : ParsedFileMsg :=
      { id := value.id
        name := value.name
        mimeType := value.mimeType
        modifiedTime := value.modifiedTime
        storagePath := storage_path
        textLength :=
          if truthyStr env.parsed_text then some (env.parsed_text.getD "").length
          else none
        parseTimestamp := env.now
        parseStatus := env.parse_status
        errorMessage := none }
    let msgWrites : ParsedFileMsg × List (String × String) :=
      if env.parse_status == "success" && truthyStr env.parsed_text then
        if env.save_ok then (base, [(storage_path, env.parsed_text.getD "")])
        else ({ base with
                parseStatus := "failed"
                errorMessage :=
                  some ("Failed to save to storage: " ++ env.save_err) }, [])
      else if env.parse_status == "failed" then
        ({ base with errorMessage := some "PDF parsing failed" }, [])
      else if env.parse_status == "empty" then
        ({ base with errorMessage := some "PDF contains no extractable text" }, [])
      else if env.parse_status == "download_failed" then
        ({ base with
           errorMessage := some "Failed to download PDF from Google Drive" }, [])
      else (base, [])
    let state2 := if truthyStr value.modifiedTime then value.modifiedTime else state
    ⟨some msgWrites.1, state2, msgWrites.2⟩

/-! ### ChunkStage: FileChunkerFunction.flat_map (chunker_job.py) and the
per-message chunk emission of run_chunker_demo (demo_pipeline.py) -/

/-- The fields of a parsed-file message that the chunk stage reads. -/
structure ParsedFileValue where
  id : String
  name : String
  storagePath : Option String
  parseStatus : Option String
deriving Repr, DecidableEq

/-- The wire chunk record. -/
structure ChunkMsg where
  fileId : String
  fileName : String
  chunkId : String
  chunkIndex : Nat
  chunkText : List Char
  startPosition : Nat
  endPosition : Nat
  chunkTimestamp : String
  totalChunks : Nat
deriving Repr, DecidableEq

/-- Model of `FileChunkerFunction.flat_map` of `chunker_job.py`.  `store` models
`storage_adapter.load`; `clock` models `datetime.utcnow().isoformat() + 'Z'`,
indexed by how many times the clock has been consulted during the call.  The
Flink job reads the clock once, before the emission loop, so every emitted
chunk carries `clock 0`.  `none` propagates chunker non-termination. -/
def flat_map (W o fuel : Nat) (store : String → Option (List Char))
    (clock : Nat → String) (value : ParsedFileValue) :
    Option (List ChunkMsg) :=
  if value.parseStatus ≠ some "success" then some []
  else if !truthyStr value.storagePath then some []
  else
    match store (value.storagePath.getD "") with
    | none => some []
    | some parsed_text =>
      if parsed_text.isEmpty then some []
      else
        match chunk_text W o fuel parsed_text value.id with
        | none => none
        | some chunks =>
          if chunks.isEmpty then some []
          else
            let chunk_timestamp := clock 0
            some (chunks.map (fun c =>
              { fileId := value.id
                fileName := value.name
                chunkId := c.chunk_id
                chunkIndex := c.chunk_index
                chunkText := c.text
                startPosition := c.start_position
                endPosition := c.end_position
                chunkTimestamp := chunk_timestamp
                totalChunks := c.total_chunks }))

/-- The per-message body of `PipelineDemo.run_chunker_demo` in
`demo_pipeline.py`: same skip conditions, but `datetime.utcnow()` is called
inside the per-chunk loop, so the i-th emitted chunk carries `clock i`. -/
def demo_emit_chunks (W o fuel : Nat) (store : String → Option (List Char))
    (clock : Nat → String) (parsed_file : ParsedFileValue) :
    Option (List ChunkMsg) :=
  if parsed_file.parseStatus ≠ some "success" then some []
  else if !truthyStr parsed_file.storagePath then some []
  else
    match store (parsed_file.storagePath.getD "") with
    | none => some []
    | some text_content =>
      if text_content.isEmpty then some []
      else
        match chunk_text W o fuel text_content parsed_file.id with
        | none => none
        | some chunks =>
          some (chunks.enum.map (fun ic =>
            { fileId := parsed_file.id
              fileName := parsed_file.name
              chunkId := ic.2.chunk_id
              chunkIndex := ic.2.chunk_index
              chunkText := ic.2.text
              startPosition := ic.2.start_position
              endPosition := ic.2.end_position
              chunkTimestamp := clock ic.1
              totalChunks := ic.2.total_chunks }))

/-! ### Claim theorems about the pipeline stages -/

/-- C3: when the keyed state already holds a (non-empty) timestamp `t` and the
incoming file carries a (non-empty) `modifiedTime` `m` with `m <= t`,
`process_element` returns no ParsedFile, performs no storage write, and leaves
the dedup state untouched. -/
theorem process_element_dedup (env : ParseEnv) (state : Option String)
    (value : DriveFileValue) (t m : String)
    (hstate : state = some t) (ht : t.data ≠ [])
    (hmod : value.modifiedTime = some m) (hm : m.data ≠ [])
    (hle : pyStrLe m.data t.data = true) :
    process_element env state value = ⟨none, state, []⟩ := by
  subst hstate
  have hcond : (truthyStr (some t) && truthyStr value.modifiedTime &&
      pyStrLe (value.modifiedTime.getD "").data
        ((some t : Option String).getD "").data) = true := by
    rw [hmod]
    simp [truthyStr, List.isEmpty_iff, ht, hm, hle]
  simp only [process_element]
  cases hpdf : is_pdf_file value.mimeType
  · simp [hpdf]
  · simp only [Bool.and_eq_true, Option.getD_some] at hcond
    simp [hpdf, hcond.1.1, hcond.1.2, hcond.2]

/-- C3 witness at a concrete stale message. -/
theorem process_element_dedup_witness :
    process_element
        { parsed_text := none, parse_status := "failed", save_ok := true,
          save_err := "", now := "2024-01-01T00:00:00Z" }
        (some "2024-02-01T00:00:00Z")
        { id := "f1", name := "doc.pdf", mimeType := some "application/pdf",
          modifiedTime := some "2024-01-01T00:00:00Z" } =
      ⟨none, some "2024-02-01T00:00:00Z", []⟩ :=
  process_element_dedup _ _ _ "2024-02-01T00:00:00Z" "2024-01-01T00:00:00Z"
    rfl (by decide) rfl (by decide) (by decide)

/-- C2 (amended): when the extractor reports status `failed` for a PDF message
that is not dedup-skipped, `process_element` emits exactly one ParsedFile with
`parseStatus = "failed"`, `errorMessage = "PDF parsing failed"` and
`storagePath = "parsed/{id}.txt"` (NOT the empty string), and performs no
storage write; and in general every call returns zero or one ParsedFile. -/
theorem process_element_failed (env : ParseEnv) (state : Option String)
    (value : DriveFileValue)
    (hfail : env.parse_status = "failed")
    (hpdf : is_pdf_file value.mimeType = true)
    (hskip : (truthyStr state && truthyStr value.modifiedTime &&
      pyStrLe (value.modifiedTime.getD "").data (state.getD "").data) = false) :
    (∃ msg, (process_element env state value).output = some msg ∧
      msg.parseStatus = "failed" ∧
      msg.errorMessage = some "PDF parsing failed" ∧
      msg.storagePath = "parsed/" ++ value.id ++ ".txt") ∧
    (process_element env state value).writes = [] ∧
    (∀ env2 st2 v2, (process_element env2 st2 v2).output = none ∨
      ∃ msg2, (process_element env2 st2 v2).output = some msg2) := by
  have h1 : (env.parse_status == "success") = false := by
    rw [hfail]
    decide
  have h2 : (env.parse_status == "failed") = true := by
    rw [hfail]
    decide
  refine ⟨?_, ?_, ?_⟩
  · simp [process_element, hpdf, hskip, h1, h2, hfail]
  · simp [process_element, hpdf, hskip, h1, h2]
  · intro env2 st2 v2
    simp only [process_element]
    cases hpdf2 : is_pdf_file v2.mimeType
    · simp [hpdf2]
    · cases hskip2 : (truthyStr st2 && truthyStr v2.modifiedTime &&
        pyStrLe (v2.modifiedTime.getD "").data (st2.getD "").data)
      · simp [hpdf2, hskip2]
      · simp [hpdf2, hskip2]

/-- C2 counterexample input: a PDF message whose extraction fails. -/
def c2Env : ParseEnv :=
  { parsed_text := none, parse_status := "failed", save_ok := true,
    save_err := "", now := "2024-01-01T00:00:00Z" }

/-- C2 counterexample input: the incoming drive-file message. -/
def c2Value : DriveFileValue :=
  { id := "f1", name := "doc.pdf", mimeType := some "application/pdf",
    modifiedTime := some "2024-01-02T00:00:00Z" }

/-- C2 counterexample: on a failed extraction the emitted record's
`storagePath` is `"parsed/f1.txt"`, not the empty string the claim
requires. -/
theorem process_element_failed_cex :
    ((process_element c2Env none c2Value).output.map
        (fun msg => (msg.parseStatus, msg.storagePath, msg.errorMessage))) =
      some ("failed", "parsed/f1.txt", some "PDF parsing failed") ∧
    (process_element c2Env none c2Value).writes = [] ∧
    ¬(("parsed/f1.txt" : String) = "") := by
  exact ⟨by decide, by decide, by decide⟩

/-- C2 witness: the amended statement at the concrete failing input. -/
theorem process_element_failed_witness :
    (∃ msg, (process_element c2Env none c2Value).output = some msg ∧
      msg.parseStatus = "failed" ∧
      msg.errorMessage = some "PDF parsing failed" ∧
      msg.storagePath = "parsed/" ++ c2Value.id ++ ".txt") ∧
    (process_element c2Env none c2Value).writes = [] ∧
    (∀ env2 st2 v2, (process_element env2 st2 v2).output = none ∨
      ∃ msg2, (process_element env2 st2 v2).output = some msg2) :=
  process_element_failed c2Env none c2Value rfl (by decide) (by decide)

/-- C8 (amended): in the Flink ChunkStage (`FileChunkerFunction.flat_map`),
the clock is read once before the emission loop, so all chunk records emitted
for one ParsedFile share one `chunkTimestamp`.  (The demo pipeline stamps
each chunk separately; see the counterexample.) -/
theorem flat_map_uniform_timestamp (W o fuel : Nat)
    (store : String → Option (List Char)) (clock : Nat → String)
    (value : ParsedFileValue) (msgs : List ChunkMsg)
    (h : flat_map W o fuel store clock value = some msgs) :
    ∀ m ∈ msgs, ∀ m2 ∈ msgs, m.chunkTimestamp = m2.chunkTimestamp := by
  simp only [flat_map] at h
  split at h
  · cases h
    simp
  · split at h
    · cases h
      simp
    · split at h
      · cases h
        simp
      · split at h
        · cases h
          simp
        · split at h
          · exact absurd h (by simp)
          · split at h
            · cases h
              simp
            · cases h
              intro m hm m2 hm2
              rw [List.mem_map] at hm hm2
              obtain ⟨c1, hc1m, hc1⟩ := hm
              obtain ⟨c2, hc2m, hc2⟩ := hm2
              subst hc1
              subst hc2
              rfl

/-- C8 concrete store: one stored parsed text of ten characters. -/
def c8Store : String → Option (List Char) := fun p =>
  if p = "parsed/f1.txt" then some "abcdefghij".toList else none

/-- C8 concrete clock: the i-th reading of the wall clock is `toString i`
(time advances between consecutive readings). -/
def c8Clock : Nat → String := fun i => toString i

/-- C8 concrete input message. -/
def c8Value : ParsedFileValue :=
  { id := "f1", name := "doc.pdf", storagePath := some "parsed/f1.txt",
    parseStatus := some "success" }

/-- C8 counterexample: the demo pipeline's chunk emission
(`run_chunker_demo`) calls `datetime.utcnow()` once per chunk, so with an
advancing clock the four chunks of one file carry four different
`chunkTimestamp`s - the claim fails on this cited code path. -/
theorem demo_emit_chunks_timestamp_cex :
    (demo_emit_chunks 5 1 10 c8Store c8Clock c8Value).map
        (fun ms => ms.map (fun m => m.chunkTimestamp)) =
      some ["0", "1", "2", "3"] ∧
    ¬(("0" : String) = "1") := by
  exact ⟨by decide, by decide⟩

/-- C8 witness: the Flink stage at the same concrete input, via the amended
theorem. -/
theorem flat_map_uniform_timestamp_witness :
    ∃ msgs, flat_map 5 1 10 c8Store c8Clock c8Value = some msgs ∧
      ∀ m ∈ msgs, ∀ m2 ∈ msgs, m.chunkTimestamp = m2.chunkTimestamp :=
  ⟨(flat_map 5 1 10 c8Store c8Clock c8Value).getD [], by decide,
   flat_map_uniform_timestamp 5 1 10 c8Store c8Clock c8Value _ (by decide)⟩

end UniversalSearch
